import Mathlib

/-!
Verification development for the abbrlink identifier engine of the
obsidian-plugin-abbrlink repository.

The TypeScript core is shallowly embedded below.  SHA-256 digests and the
cryptographically random byte draws of the source are modelled as explicit
oracle parameters (a digest is a list of byte values, a random source is a
stream of already-encoded identifier strings), so every embedded function is
a pure, executable Lean definition.  String/regex operations of JavaScript
(`substring`, `padStart`, `toString(base)`, `BigInt('0x…')`, and the
extraction pattern of `getExistingAbbrlink`) are translated character by
character.
-/

set_option autoImplicit false

namespace Abbr

/-! ## JavaScript character classes and number rendering -/

/-- The characters matched by the JavaScript regex class backslash-s
(ASCII whitespace plus the Unicode space separators and the BOM). -/
def wsChars : List Char :=
  [Char.ofNat 0x09, Char.ofNat 0x0a, Char.ofNat 0x0b, Char.ofNat 0x0c,
   Char.ofNat 0x0d, Char.ofNat 0x20, Char.ofNat 0xa0, Char.ofNat 0x1680,
   Char.ofNat 0x2000, Char.ofNat 0x2001, Char.ofNat 0x2002, Char.ofNat 0x2003,
   Char.ofNat 0x2004, Char.ofNat 0x2005, Char.ofNat 0x2006, Char.ofNat 0x2007,
   Char.ofNat 0x2008, Char.ofNat 0x2009, Char.ofNat 0x200a, Char.ofNat 0x2028,
   Char.ofNat 0x2029, Char.ofNat 0x202f, Char.ofNat 0x205f, Char.ofNat 0x3000,
   Char.ofNat 0xfeff]

def isWhitespaceJS (c : Char) : Bool := wsChars.contains c

/-- The regex class `[a-fA-F0-9]` used by the hex extraction pattern. -/
def isHexDigitJS (c : Char) : Bool :=
  ('0' ≤ c && c ≤ '9') || ('a' ≤ c && c ≤ 'f') || ('A' ≤ c && c ≤ 'F')

/-- The regex class of decimal digits used by the decimal extraction pattern. -/
def isDecDigitJS (c : Char) : Bool := '0' ≤ c && c ≤ '9'

/-- Digit characters of JavaScript `Number.prototype.toString(base)`
(lowercase letters from `a` for digit values of ten and above). -/
def digitCharJS (n : Nat) : Char :=
  if n < 10 then Char.ofNat ('0'.toNat + n) else Char.ofNat ('a'.toNat + (n - 10))

/-- Fuel-driven digit accumulation, mirroring the repeated
divide-by-base loop of `toString(base)`. -/
def toStringBaseAux (base : Nat) : Nat → Nat → List Char → List Char
  | 0, _, acc => acc
  | fuel + 1, n, acc =>
    let acc' := digitCharJS (n % base) :: acc
    let q := n / base
    if q = 0 then acc' else toStringBaseAux base fuel q acc'

/-- JavaScript `n.toString(base)` for a natural number, as a character list
(most significant digit first; `0` renders as `"0"`). -/
def toStringBase (base n : Nat) : List Char :=
  toStringBaseAux base (n + 1) n []

/-- JavaScript `String.prototype.padStart(target, pad)`: prepend `pad`
characters until the length reaches `target`; no effect on longer strings. -/
def padStartJS (cs : List Char) (target : Nat) (pad : Char) : List Char :=
  List.replicate (target - cs.length) pad ++ cs

/-- Numeric value of one hex digit, as read by `BigInt('0x…')`: code point
48 starts the digits, 87 is ten below `'a'`, 55 is ten below `'A'`. -/
def hexDigitVal? (c : Char) : Option Nat :=
  if c ≤ '9' && '0' ≤ c then some (c.toNat - 48)
  else if c ≤ 'f' && 'a' ≤ c then some (c.toNat - 87)
  else if c ≤ 'F' && 'A' ≤ c then some (c.toNat - 55)
  else none

def parseHexCore : List Char → Nat → Option Nat
  | [], acc => some acc
  | c :: cs, acc =>
    match hexDigitVal? c with
    | some v => parseHexCore cs (acc * 16 + v)
    | none => none

/-- JavaScript `BigInt('0x' + hex)`: the hex string read as an unsigned
integer; `none` models the exception thrown on an empty or non-hex string. -/
def parseHexNat : List Char → Option Nat
  | [] => none
  | c :: cs => parseHexCore (c :: cs) 0

/-! ## src/src/utils/types.ts — AbbrLinkSettings -/

structure AbbrLinkSettings where
  hashLength : Nat
  skipExisting : Bool
  autoGenerate : Bool
  useRandomMode : Bool
  checkCollision : Bool
  maxCollisionChecks : Nat
  overrideDifferentLength : Bool
  useDecimal : Bool
deriving DecidableEq, Repr

/-! ## src/src/utils/hash.ts -/

/-- One byte rendered as in `b.toString(16).padStart(2, '0')`. -/
def byteToHexJS (b : Nat) : List Char :=
  padStartJS (toStringBase 16 b) 2 '0'

/-- The 64-character lowercase hex rendering of a digest byte array
(`hashArray.map(b => b.toString(16).padStart(2, '0')).join('')`). -/
def hashHexOf (digest : List Nat) : List Char :=
  (digest.map byteToHexJS).flatten

/-- Function `hexToDecimal` from src/src/utils/hash.ts, on character lists:
read the hex string as a big integer, render in base 10, left-pad with `'0'`
when shorter than `maxLength`, otherwise `slice(0, maxLength)` (the FIRST
`maxLength` characters). -/
def hexToDecimalL (hex : List Char) (maxLength : Nat) : Option (List Char) :=
  (parseHexNat hex).map fun n =>
    let decimal := toStringBase 10 n
    if decimal.length < maxLength then padStartJS decimal maxLength '0'
    else decimal.take maxLength

/-- Function `hexToDecimal` at string level. -/
def hexToDecimal (hex : String) (maxLength : Nat) : Option String :=
  (hexToDecimalL hex.data maxLength).map String.mk

/-- Function `generateRandomHash` from src/src/utils/hash.ts.  The SHA-256 digest of
the 32 random bytes is the oracle parameter `digest`. -/
def generateRandomHash (digest : List Nat) (hashLength : Nat)
    (useDecimal : Bool) : Option String :=
  let hashHex := hashHexOf digest
  if useDecimal then (hexToDecimalL hashHex hashLength).map String.mk
  else some (String.mk (hashHex.take hashLength))

/-- Function `generateSha256` from src/src/utils/hash.ts.  Here `contentDigest` is the
SHA-256 digest of the UTF-8 bytes of the input string, `randomDigest` the
digest drawn on the random path; both are oracle parameters. -/
def generateSha256 (settings : AbbrLinkSettings)
    (contentDigest randomDigest : List Nat) : Option String :=
  if settings.useRandomMode then
    generateRandomHash randomDigest settings.hashLength settings.useDecimal
  else
    let hashHex := hashHexOf contentDigest
    if settings.useDecimal then
      (hexToDecimalL hashHex settings.hashLength).map String.mk
    else some (String.mk (hashHex.take settings.hashLength))

/-! ## getExistingAbbrlink — the extraction regex

`content.match(new RegExp(pattern))` with
`pattern = 'abbrlink:\\s*([a-fA-F0-9]{L})'` (hex) or
`'abbrlink:\\s*(\\d{1,L})'` (decimal).  The regex engine returns the
leftmost match; since the whitespace class is disjoint from both value
classes, greedy `\s*` never backtracks, so matching at one position is
literal-match, maximal whitespace munch, then a counted class match. -/

/-- Match a literal character sequence at the head of the input, returning
the remainder. -/
def matchLit : List Char → List Char → Option (List Char)
  | [], cs => some cs
  | _ :: _, [] => none
  | p :: ps, c :: cs => if c = p then matchLit ps cs else none

/-- Attempt the extraction pattern at one start position. Returns the
captured group. -/
def matchAt (cs : List Char) (hashLength : Nat) (useDecimal : Bool) :
    Option (List Char) :=
  match matchLit "abbrlink:".data cs with
  | none => none
  | some rest =>
    let rest2 := rest.dropWhile isWhitespaceJS
    if useDecimal then
      let digits := (rest2.takeWhile isDecDigitJS).take hashLength
      if 1 ≤ digits.length then some digits else none
    else
      let hexs := rest2.take hashLength
      if (hexs.length == hashLength) && hexs.all isHexDigitJS then some hexs
      else none

/-- Leftmost match: try each start position from the left. -/
def scanMatch : List Char → Nat → Bool → Option (List Char)
  | [], _, _ => none
  | c :: cs, n, d =>
    match matchAt (c :: cs) n d with
    | some r => some r
    | none => scanMatch cs n d

/-- Function `getExistingAbbrlink` from src/src/utils/hash.ts. -/
def getExistingAbbrlink (content : String) (hashLength : Nat)
    (useDecimal : Bool) : Option String :=
  (scanMatch content.data hashLength useDecimal).map String.mk

/-! ## src/src/utils/TaskManager.ts -/

/-- The slice of an Obsidian `TFile` the engine reads: `path`, `basename`,
and `stat.ctime`. -/
structure FileRef where
  path : String
  basename : String
  ctime : Int
deriving DecidableEq, Repr

/-- Structure `FileTask` from src/src/utils/TaskManager.ts. -/
structure FileTask where
  file : FileRef
  hasAbbrlink : Bool
  hash : Option String
  needsLengthUpdate : Bool
deriving DecidableEq, Repr

/-- Structure `HashConflict` from src/src/utils/TaskManager.ts. -/
structure HashConflict where
  hash : String
  files : List FileRef
deriving DecidableEq, Repr

/-- One step of filling the JavaScript `Map<string, TFile[]>`: fetch the
bucket of `h` (or `[]`), push `f`, and store it back.  A JS `Map` keeps key
insertion order, so it is an association list updated in place. -/
def updateAssoc (m : List (String × List FileRef)) (h : String) (f : FileRef) :
    List (String × List FileRef) :=
  match m with
  | [] => [(h, [f])]
  | (k, v) :: tl =>
    if k = h then (k, v ++ [f]) :: tl else (k, v) :: updateAssoc tl h f

/-- One loop-body step of `findHashConflicts`: `if (task.hash) …` skips tasks
whose hash is `undefined` or the falsy empty string. -/
def conflictStep (m : List (String × List FileRef)) (t : FileTask) :
    List (String × List FileRef) :=
  match t.hash with
  | some h => if h = "" then m else updateAssoc m h t.file
  | none => m

/-- The grouping fold of `findHashConflicts`. -/
def conflictMap (tasks : List FileTask) : List (String × List FileRef) :=
  tasks.foldl conflictStep []

/-- Method `TaskManager.findHashConflicts`: groups with more than one member. -/
def findHashConflicts (tasks : List FileTask) : List HashConflict :=
  ((conflictMap tasks).filter fun p => 1 < p.2.length).map
    fun p => { hash := p.1, files := p.2 }

/-- Method `TaskManager.filterTasksToProcess`. -/
def filterTasksToProcess (settings : AbbrLinkSettings)
    (allTasks : List FileTask) : List FileTask :=
  if settings.skipExisting then
    allTasks.filter fun t =>
      !t.hasAbbrlink || (settings.overrideDifferentLength && t.needsLengthUpdate)
  else allTasks

/-! ## Conflict resolution (src/unnamed/part_002, `resolveConflicts`)

The random draws of `generateRandomHash` are modelled as a stream of
already-encoded identifiers: each `do … while` draw consumes one stream
element.  `none` models a run whose random source never yields an acceptable
value (the source loops forever there). -/

/-- The set `new Set(tasks.map(t => t.hash).filter(Boolean))`: the identifiers in use
at entry (the empty string is falsy and excluded). -/
def usedHashesOf (tasks : List FileTask) : List String :=
  (tasks.filterMap fun t => t.hash).filter fun h => h != ""

/-- Stable insertion used to model `files.sort((a, b) => a.stat.ctime -
b.stat.ctime)` (JS sort is stable, ascending). -/
def insertByCtime (x : FileRef) : List FileRef → List FileRef
  | [] => [x]
  | y :: ys => if x.ctime ≤ y.ctime then x :: y :: ys else y :: insertByCtime x ys

def sortByCtime (fs : List FileRef) : List FileRef :=
  fs.foldr insertByCtime []

/-- The do-while rejection loop (draw `generateRandomHash()` while `usedHashes` has it):
rejection loop: pull stream values until one is outside `used`. -/
def drawFresh (used : List String) : List String → Option (String × List String)
  | [] => none
  | h :: rest => if used.contains h then drawFresh used rest else some (h, rest)

/-- The update `tasks.find(t => t.file.path === file.path)` followed by `task.hash =
newHash`: update the first task with the given path. -/
def setTaskHash (tasks : List FileTask) (p : String) (h : String) :
    List FileTask :=
  match tasks with
  | [] => []
  | t :: tl =>
    if t.file.path = p then { t with hash := some h } :: tl
    else t :: setTaskHash tl p h

/-- The inner `for (let i = 1; …)` loop of `resolveConflicts`: reassign each
listed file a fresh draw (the caller passes the sorted group minus its first
member). -/
def reassignFiles (used : List String) :
    List FileRef → List FileTask → List String →
    Option (List FileTask × List String)
  | [], tasks, stream => some (tasks, stream)
  | f :: fs, tasks, stream =>
    match drawFresh used stream with
    | none => none
    | some (h, rest) => reassignFiles used fs (setTaskHash tasks f.path h) rest

/-- The outer `for (const conflict of conflicts)` loop of `resolveConflicts`. -/
def resolveGroups (used : List String) :
    List HashConflict → List FileTask → List String →
    Option (List FileTask × List String)
  | [], tasks, stream => some (tasks, stream)
  | g :: gs, tasks, stream =>
    match reassignFiles used (sortByCtime g.files).tail tasks stream with
    | none => none
    | some (tasks2, stream2) => resolveGroups used gs tasks2 stream2

/-- Function `resolveConflicts` from src/unnamed/part_002 (lines 172-204): snapshot
the used-identifier set, recompute the conflict groups, and for each group
keep the earliest-created member while redrawing the rest against the
snapshot. -/
def resolveConflicts (tasks : List FileTask) (stream : List String) :
    Option (List FileTask × List String) :=
  let conflicts := findHashConflicts tasks
  if conflicts.isEmpty then some (tasks, stream)
  else resolveGroups (usedHashesOf tasks) conflicts tasks stream

/-! ## The collision-check loop (src/unnamed/part_002,
`processFilesWithCollisionCheck`)

`generateUniqueHash` (the deterministic, name-keyed SHA-256 path) is the
oracle `gen : String → String` from basename to encoded identifier.  The
`while (hasConflicts && checkCount < maxCollisionChecks)` loop is driven by
the fuel `remaining = maxCollisionChecks - checkCount`. -/

/-- The `for (const task of currentTasks) if (!task.hash) …` pass: assign a
generated hash to every task whose hash is `undefined` or the falsy `""`. -/
def fillMissing (gen : String → String) (tasks : List FileTask) :
    List FileTask :=
  tasks.map fun t =>
    match t.hash with
    | none => { t with hash := some (gen t.file.basename) }
    | some h =>
      if h = "" then { t with hash := some (gen t.file.basename) } else t

/-- The zero-conflict commit: `processFrontMatter` writes `task.hash` for
every current task. -/
def commitAll (tasks : List FileTask) : List (String × String) :=
  tasks.map fun t => (t.file.path, t.hash.getD "")

/-- Observable outcome of one `processFilesWithCollisionCheck` run:
the in-memory task list at exit, the metadata writes issued, the
`showCollisionWarning` payload `(checkCount, conflicts, currentLength,
suggestedLength)` if any, and the number of rounds executed. -/
structure RunResult where
  finalTasks : List FileTask
  commits : List (String × String)
  warning : Option (Nat × Nat × Nat × Nat)
  rounds : Nat
deriving DecidableEq, Repr

def processFilesAux (gen : String → String) (hashLength maxChecks : Nat) :
    Nat → Nat → List FileTask → List String → Option RunResult
  | checkCount, 0, tasks, _ => some ⟨tasks, [], none, checkCount⟩
  | checkCount, remaining + 1, tasks, stream =>
    let cc := checkCount + 1
    let tasks1 := fillMissing gen tasks
    let conflicts := findHashConflicts tasks1
    if conflicts.isEmpty then some ⟨tasks1, commitAll tasks1, none, cc⟩
    else
      match resolveConflicts tasks1 stream with
      | none => none
      | some (tasks2, stream2) =>
        if cc = maxChecks then
          some ⟨tasks2, [],
            some (cc, conflicts.length, hashLength, min (hashLength + 4) 32),
            cc⟩
        else processFilesAux gen hashLength maxChecks cc remaining tasks2 stream2

/-- Function `processFilesWithCollisionCheck` from src/unnamed/part_002 (lines
89-164). -/
def processFilesWithCollisionCheck (gen : String → String)
    (hashLength maxChecks : Nat) (tasks : List FileTask)
    (stream : List String) : Option RunResult :=
  processFilesAux gen hashLength maxChecks 0 maxChecks tasks stream

/-! ## Lemmas on digit rendering -/

theorem digitCharJS_dec {m : Nat} (h : m < 10) : isDecDigitJS (digitCharJS m) = true := by
  interval_cases m <;> decide

theorem digitCharJS_hex {m : Nat} (h : m < 16) : isHexDigitJS (digitCharJS m) = true := by
  interval_cases m <;> decide

theorem toStringBaseAux_mem {base : Nat} (hb : 0 < base) (P : Char → Prop)
    (hd : ∀ m, m < base → P (digitCharJS m)) :
    ∀ (fuel n : Nat) (acc : List Char), (∀ c ∈ acc, P c) →
      ∀ c ∈ toStringBaseAux base fuel n acc, P c := by
  intro fuel
  induction fuel with
  | zero => intro n acc hacc c hc; exact hacc c hc
  | succ fuel ih =>
    intro n acc hacc c hc
    simp only [toStringBaseAux] at hc
    have hacc' : ∀ c ∈ digitCharJS (n % base) :: acc, P c := by
      intro c hc
      rcases List.mem_cons.mp hc with h | h
      · exact h ▸ hd _ (Nat.mod_lt _ hb)
      · exact hacc c h
    by_cases hq : n / base = 0
    · simp only [hq, if_pos rfl] at hc
      exact hacc' c hc
    · rw [if_neg hq] at hc
      exact ih _ _ hacc' c hc

theorem toStringBase_dec {n : Nat} : ∀ c ∈ toStringBase 10 n, isDecDigitJS c = true :=
  toStringBaseAux_mem (by norm_num) _ (fun m hm => digitCharJS_dec hm) _ n [] (by simp)

theorem toStringBase_hex {n : Nat} : ∀ c ∈ toStringBase 16 n, isHexDigitJS c = true :=
  toStringBaseAux_mem (by norm_num) _ (fun m hm => digitCharJS_hex hm) _ n [] (by simp)

theorem toStringBaseAux_length_ge {base : Nat} :
    ∀ (fuel n : Nat) (acc : List Char),
      acc.length ≤ (toStringBaseAux base fuel n acc).length := by
  intro fuel
  induction fuel with
  | zero => intro n acc; simp [toStringBaseAux]
  | succ fuel ih =>
    intro n acc
    simp only [toStringBaseAux]
    by_cases hq : n / base = 0
    · simp [hq]
    · rw [if_neg hq]
      calc acc.length ≤ (digitCharJS (n % base) :: acc).length := by simp
        _ ≤ _ := ih _ _

theorem toStringBase_length_pos {base n : Nat} : 0 < (toStringBase base n).length := by
  unfold toStringBase
  simp only [toStringBaseAux]
  by_cases hq : n / base = 0
  · simp [hq]
  · rw [if_neg hq]
    calc 0 < (digitCharJS (n % base) :: ([] : List Char)).length := by simp
      _ ≤ _ := toStringBaseAux_length_ge _ _ _

/-! ## Lemmas on padStart and parseHex -/

theorem padStartJS_length (cs : List Char) (t : Nat) (p : Char) :
    (padStartJS cs t p).length = max t cs.length := by
  simp [padStartJS, Nat.sub_add_eq_max]

theorem padStartJS_mem {cs : List Char} {t : Nat} {p c : Char}
    (h : c ∈ padStartJS cs t p) : c = p ∨ c ∈ cs := by
  rcases List.mem_append.mp h with h | h
  · exact Or.inl (List.eq_of_mem_replicate h)
  · exact Or.inr h

theorem hexDigitVal?_isSome {c : Char} (h : isHexDigitJS c = true) :
    ∃ v, hexDigitVal? c = some v := by
  unfold hexDigitVal?
  by_cases h1 : (c ≤ '9' && '0' ≤ c) = true
  · exact ⟨_, by rw [if_pos h1]⟩
  · by_cases h2 : (c ≤ 'f' && 'a' ≤ c) = true
    · exact ⟨_, by rw [if_neg h1, if_pos h2]⟩
    · by_cases h3 : (c ≤ 'F' && 'A' ≤ c) = true
      · exact ⟨_, by rw [if_neg h1, if_neg h2, if_pos h3]⟩
      · exfalso
        unfold isHexDigitJS at h
        simp only [Bool.or_eq_true, Bool.and_eq_true, decide_eq_true_eq]
          at h h1 h2 h3
        tauto

theorem parseHexCore_isSome :
    ∀ (cs : List Char), (∀ c ∈ cs, isHexDigitJS c = true) →
      ∀ acc, ∃ n, parseHexCore cs acc = some n := by
  intro cs
  induction cs with
  | nil => intro _ acc; exact ⟨acc, rfl⟩
  | cons c cs ih =>
    intro h acc
    obtain ⟨v, hv⟩ := hexDigitVal?_isSome (h c (by simp))
    obtain ⟨n, hn⟩ := ih (fun c hc => h c (by simp [hc])) (acc * 16 + v)
    exact ⟨n, by simp [parseHexCore, hv, hn]⟩

theorem parseHexNat_isSome {cs : List Char} (hne : cs ≠ [])
    (h : ∀ c ∈ cs, isHexDigitJS c = true) : ∃ n, parseHexNat cs = some n := by
  cases cs with
  | nil => exact absurd rfl hne
  | cons c cs => exact parseHexCore_isSome _ h 0

/-! ## Lemmas on the hex rendering of a digest -/

theorem byteToHexJS_length (b : Nat) : 2 ≤ (byteToHexJS b).length := by
  unfold byteToHexJS
  rw [padStartJS_length]
  exact Nat.le_max_left _ _

theorem byteToHexJS_hex {b : Nat} : ∀ c ∈ byteToHexJS b, isHexDigitJS c = true := by
  intro c hc
  rcases padStartJS_mem hc with h | h
  · subst h; decide
  · exact toStringBase_hex c h

theorem hashHexOf_length (digest : List Nat) :
    2 * digest.length ≤ (hashHexOf digest).length := by
  induction digest with
  | nil => simp [hashHexOf]
  | cons b digest ih =>
    have : hashHexOf (b :: digest) = byteToHexJS b ++ hashHexOf digest := by
      simp [hashHexOf]
    rw [this, List.length_append]
    have h2 := byteToHexJS_length b
    have hlc : (b :: digest).length = digest.length + 1 := by simp
    omega

theorem hashHexOf_hex {digest : List Nat} :
    ∀ c ∈ hashHexOf digest, isHexDigitJS c = true := by
  intro c hc
  simp only [hashHexOf, List.mem_flatten] at hc
  obtain ⟨l, hl, hcl⟩ := hc
  obtain ⟨b, _, rfl⟩ := List.mem_map.mp hl
  exact byteToHexJS_hex c hcl

/-! ## The encoded output: exact length and alphabet -/

/-- The alphabet check of an identifier under the configured encoding. -/
def alphabetOk (useDecimal : Bool) (s : String) : Prop :=
  ∀ c ∈ s.data, (if useDecimal then isDecDigitJS c else isHexDigitJS c) = true

theorem hexToDecimalL_ok {hh : List Char} (n : Nat) (hne : hh ≠ [])
    (hhex : ∀ c ∈ hh, isHexDigitJS c = true) :
    ∃ cs, hexToDecimalL hh n = some cs ∧ cs.length = n ∧
      ∀ c ∈ cs, isDecDigitJS c = true := by
  obtain ⟨v, hv⟩ := parseHexNat_isSome hne hhex
  refine ⟨if (toStringBase 10 v).length < n then padStartJS (toStringBase 10 v) n '0'
      else (toStringBase 10 v).take n,
    by simp [hexToDecimalL, hv], ?_, ?_⟩
  · by_cases hlen : (toStringBase 10 v).length < n
    · rw [if_pos hlen, padStartJS_length]; omega
    · rw [if_neg hlen, List.length_take]; omega
  · intro c hc
    by_cases hlen : (toStringBase 10 v).length < n
    · rw [if_pos hlen] at hc
      rcases padStartJS_mem hc with h | h
      · subst h; decide
      · exact toStringBase_dec c h
    · rw [if_neg hlen] at hc
      exact toStringBase_dec c (List.mem_of_mem_take hc)

theorem hexTake_ok {hh : List Char} {n : Nat} (hn : n ≤ hh.length)
    (hhex : ∀ c ∈ hh, isHexDigitJS c = true) :
    (hh.take n).length = n ∧ ∀ c ∈ hh.take n, isHexDigitJS c = true := by
  constructor
  · rw [List.length_take]; omega
  · exact fun c hc => hhex c (List.mem_of_mem_take hc)

theorem generateRandomHash_ok (digest : List Nat) (n : Nat) (useDec : Bool)
    (hd : digest.length = 32) (h4 : 4 ≤ n) (h32 : n ≤ 32) :
    ∃ s, generateRandomHash digest n useDec = some s ∧
      s.length = n ∧ alphabetOk useDec s := by
  have hlen : n ≤ (hashHexOf digest).length := by
    have := hashHexOf_length digest; omega
  have hne : hashHexOf digest ≠ [] := by
    intro h
    rw [h] at hlen
    simp at hlen
    omega
  cases useDec with
  | false =>
    obtain ⟨hl, hc⟩ := hexTake_ok hlen hashHexOf_hex
    refine ⟨String.mk ((hashHexOf digest).take n), by simp [generateRandomHash], ?_, ?_⟩
    · simpa [String.length] using hl
    · simp only [alphabetOk, if_neg Bool.false_ne_true]
      intro c hcm
      exact hc c hcm
  | true =>
    obtain ⟨cs, hcs, hl, hc⟩ := hexToDecimalL_ok n hne hashHexOf_hex
    refine ⟨String.mk cs, by simp [generateRandomHash, hcs], ?_, ?_⟩
    · simpa [String.length] using hl
    · simp only [alphabetOk, if_pos rfl]
      intro c hcm
      exact hc c hcm

theorem generateSha256_ok (settings : AbbrLinkSettings)
    (contentDigest randomDigest : List Nat)
    (hcd : contentDigest.length = 32) (hrd : randomDigest.length = 32)
    (h4 : 4 ≤ settings.hashLength) (h32 : settings.hashLength ≤ 32) :
    ∃ s, generateSha256 settings contentDigest randomDigest = some s ∧
      s.length = settings.hashLength ∧ alphabetOk settings.useDecimal s := by
  unfold generateSha256
  by_cases hr : settings.useRandomMode
  · rw [if_pos hr]
    exact generateRandomHash_ok _ _ _ hrd h4 h32
  · rw [if_neg hr]
    have hlen : settings.hashLength ≤ (hashHexOf contentDigest).length := by
      have := hashHexOf_length contentDigest; omega
    have hne : hashHexOf contentDigest ≠ [] := by
      intro h
      rw [h] at hlen
      simp at hlen
      omega
    cases hdec : settings.useDecimal with
    | false =>
      obtain ⟨hl, hc⟩ := hexTake_ok hlen hashHexOf_hex
      refine ⟨String.mk ((hashHexOf contentDigest).take settings.hashLength),
        by simp [hdec], ?_, ?_⟩
      · simpa [String.length] using hl
      · simp only [alphabetOk, hdec, if_neg Bool.false_ne_true]
        intro c hcm
        exact hc c hcm
    | true =>
      obtain ⟨cs, hcs, hl, hc⟩ := hexToDecimalL_ok settings.hashLength hne hashHexOf_hex
      refine ⟨String.mk cs, by simp [hdec, hcs], ?_, ?_⟩
      · simpa [String.length] using hl
      · simp only [alphabetOk, hdec, if_pos rfl]
        intro c hcm
        exact hc c hcm

/-! ## Claim C1 -/

/-- C1: for every valid configuration (`hashLength` between 4 and 32, hex or
decimal encoding) and every 32-byte digest the generator receives, each
identifier produced by `generateSha256` / `generateRandomHash` (including the
decimal path through `hexToDecimal`) is a string of length exactly
`hashLength` whose characters all belong to the configured alphabet
(lowercase hex digits for hex, decimal digits for decimal). -/
theorem C1_generator_length_alphabet (settings : AbbrLinkSettings)
    (contentDigest randomDigest : List Nat)
    (h4 : 4 ≤ settings.hashLength) (h32 : settings.hashLength ≤ 32)
    (hcd : contentDigest.length = 32) (hrd : randomDigest.length = 32) :
    (∃ s, generateRandomHash randomDigest settings.hashLength
        settings.useDecimal = some s ∧
        s.length = settings.hashLength ∧ alphabetOk settings.useDecimal s) ∧
    (∃ s, generateSha256 settings contentDigest randomDigest = some s ∧
        s.length = settings.hashLength ∧ alphabetOk settings.useDecimal s) :=
  ⟨generateRandomHash_ok _ _ _ hrd h4 h32,
   generateSha256_ok _ _ _ hcd hrd h4 h32⟩

theorem C1_generator_length_alphabet_witness :
    (∃ s, generateRandomHash (List.replicate 32 171) 8 true = some s ∧
        s.length = 8 ∧ alphabetOk true s) ∧
    (∃ s, generateSha256 ⟨8, true, false, false, false, 3, false, true⟩
        (List.replicate 32 171) (List.replicate 32 171) = some s ∧
        s.length = 8 ∧ alphabetOk true s) :=
  C1_generator_length_alphabet ⟨8, true, false, false, false, 3, false, true⟩
    (List.replicate 32 171) (List.replicate 32 171)
    (by decide) (by decide) (by decide) (by decide)

/-! ## Claim C5 -/

/-- C5 counterexample: `0x64` renders in base 10 as `"100"`, which is longer
than the configured length 2.  The claim says the encoder keeps the LAST 2
characters (`"00"`); the code's `decimal.slice(0, maxLength)` keeps the FIRST
2 (`"10"`). -/
theorem C5_counterexample :
    hexToDecimal "64" 2 = some "10" ∧ hexToDecimal "64" 2 ≠ some "00" := by
  decide

/-- C5 (amended): for decimal encoding, when the base-10 rendering of the hex
value is longer than the configured length, `hexToDecimal` returns the FIRST
`length` characters of that decimal string (the leading digits); when it is
shorter, it is left-padded with `'0'` to exactly `length` characters. -/
theorem C5_hexToDecimal_truncation (hex : String) (len n : Nat)
    (hp : parseHexNat hex.data = some n) :
    ∃ s, hexToDecimal hex len = some s ∧ s.length = len ∧
      ((toStringBase 10 n).length < len →
        s.data = List.replicate (len - (toStringBase 10 n).length) '0' ++
          toStringBase 10 n) ∧
      (len ≤ (toStringBase 10 n).length →
        s.data = (toStringBase 10 n).take len) := by
  refine ⟨String.mk (if (toStringBase 10 n).length < len
      then padStartJS (toStringBase 10 n) len '0'
      else (toStringBase 10 n).take len),
    by simp [hexToDecimal, hexToDecimalL, hp], ?_, ?_, ?_⟩
  · by_cases hlen : (toStringBase 10 n).length < len
    · simp only [if_pos hlen, String.length]
      rw [padStartJS_length]
      omega
    · simp only [if_neg hlen, String.length, List.length_take]
      omega
  · intro hlen
    simp [if_pos hlen, padStartJS]
  · intro hlen
    rw [if_neg (by omega)]

theorem C5_hexToDecimal_truncation_witness :
    (∃ s, hexToDecimal "64" 5 = some s ∧ s.length = 5 ∧
      ((toStringBase 10 100).length < 5 →
        s.data = List.replicate (5 - (toStringBase 10 100).length) '0' ++
          toStringBase 10 100) ∧
      (5 ≤ (toStringBase 10 100).length →
        s.data = (toStringBase 10 100).take 5)) :=
  C5_hexToDecimal_truncation "64" 5 100 (by decide)

/-! ## Lemmas on the extraction pattern -/

theorem matchLit_append (ps cs : List Char) : matchLit ps (ps ++ cs) = some cs := by
  induction ps with
  | nil => rfl
  | cons p ps ih => simp [matchLit, ih]

theorem ws_mem {c : Char} (h : isWhitespaceJS c = true) : c ∈ wsChars := by
  simpa [isWhitespaceJS] using h

theorem hex_not_ws {c : Char} (h : isHexDigitJS c = true) :
    isWhitespaceJS c = false := by
  by_contra hw
  have hw' : isWhitespaceJS c = true := by
    revert hw; cases isWhitespaceJS c <;> simp
  have hm := ws_mem hw'
  fin_cases hm <;> exact absurd h (by decide)

theorem dec_not_ws {c : Char} (h : isDecDigitJS c = true) :
    isWhitespaceJS c = false := by
  have : isHexDigitJS c = true := by
    unfold isDecDigitJS at h
    simp [isHexDigitJS, h]
  exact hex_not_ws this

theorem dropWhile_field {v : List Char} (post : List Char) (hv : v ≠ [])
    (hnw : ∀ c ∈ v, isWhitespaceJS c = false) :
    List.dropWhile isWhitespaceJS (' ' :: (v ++ post)) = v ++ post := by
  cases v with
  | nil => exact absurd rfl hv
  | cons c vs =>
    rw [List.dropWhile_cons, if_pos (by decide : isWhitespaceJS ' ' = true)]
    rw [List.cons_append, List.dropWhile_cons,
      if_neg (by simp [hnw c (by simp)])]

theorem takeWhile_append_all (p : Char → Bool) {l₁ : List Char}
    (l₂ : List Char) (h : ∀ c ∈ l₁, p c = true) :
    List.takeWhile p (l₁ ++ l₂) = l₁ ++ List.takeWhile p l₂ := by
  induction l₁ with
  | nil => simp
  | cons c l ih =>
    rw [List.cons_append, List.takeWhile_cons, if_pos (h c (by simp)),
      ih (fun c hc => h c (by simp [hc])), List.cons_append]

/-- Matching the hex pattern right at an `abbrlink: ` field whose value run
`v` has at least `hashLength` hex characters captures the first `hashLength`
of them. -/
theorem matchAt_field_hex {v : List Char} (post : List Char) {n : Nat}
    (hn : 1 ≤ n) (hnv : n ≤ v.length)
    (hv : ∀ c ∈ v, isHexDigitJS c = true) :
    matchAt ("abbrlink:".data ++ (' ' :: (v ++ post))) n false =
      some (v.take n) := by
  have hvne : v ≠ [] := by
    intro h; rw [h] at hnv; simp at hnv; omega
  have hnw : ∀ c ∈ v, isWhitespaceJS c = false := fun c hc => hex_not_ws (hv c hc)
  unfold matchAt
  rw [matchLit_append]
  simp only [dropWhile_field post hvne hnw, Bool.false_eq_true, if_false,
    List.take_append_of_le_length hnv]
  have h1 : (v.take n).length = n := by rw [List.length_take]; omega
  have h2 : (v.take n).all isHexDigitJS = true :=
    List.all_eq_true.mpr fun c hc => hv c (List.mem_of_mem_take hc)
  rw [if_pos (by simp [h1, h2])]

/-- Matching the decimal pattern right at an `abbrlink: ` field captures the
first `min hashLength k` characters of the digit run of length `k` starting
at the value. -/
theorem matchAt_field_dec {v : List Char} (post : List Char) {n : Nat}
    (hn : 1 ≤ n) (hv1 : 1 ≤ v.length)
    (hv : ∀ c ∈ v, isDecDigitJS c = true) :
    matchAt ("abbrlink:".data ++ (' ' :: (v ++ post))) n true =
      some ((v ++ List.takeWhile isDecDigitJS post).take n) := by
  have hvne : v ≠ [] := by
    intro h; rw [h] at hv1; simp at hv1
  have hnw : ∀ c ∈ v, isWhitespaceJS c = false := fun c hc => dec_not_ws (hv c hc)
  unfold matchAt
  rw [matchLit_append]
  simp only [dropWhile_field post hvne hnw, if_true]
  rw [takeWhile_append_all _ _ hv]
  rw [if_pos ?_]
  rw [List.length_take, List.length_append]
  omega

theorem scanMatch_head {cs : List Char} {n : Nat} {d : Bool} {r : List Char}
    (hne : cs ≠ []) (h : matchAt cs n d = some r) : scanMatch cs n d = some r := by
  cases cs with
  | nil => exact absurd rfl hne
  | cons c tl => simp [scanMatch, h]

/-- If the pattern matches at no start position inside `a`, the leftmost
match over `a ++ b` is the leftmost match over `b`. -/
theorem scanMatch_skip {a : List Char} (b : List Char) (n : Nat) (d : Bool)
    (h : ∀ i < a.length, matchAt (a.drop i ++ b) n d = none) :
    scanMatch (a ++ b) n d = scanMatch b n d := by
  induction a with
  | nil => simp
  | cons c a ih =>
    have h0 := h 0 (by simp)
    simp only [List.drop_zero, List.cons_append] at h0
    rw [List.cons_append]
    simp only [scanMatch, h0]
    exact ih fun i hi => by
      have := h (i + 1) (by simp; omega)
      simpa [List.drop_succ_cons] using this

theorem fieldTail_data (v post : String) :
    ("abbrlink: " ++ v ++ post).data =
      "abbrlink:".data ++ (' ' :: (v.data ++ post.data)) := by
  have h1 : "abbrlink: ".data = "abbrlink:".data ++ [' '] := by decide
  simp [String.data_append, h1, List.append_assoc]

theorem content_data (pre v post : String) :
    (pre ++ ("abbrlink: " ++ v ++ post)).data =
      pre.data ++ ("abbrlink:".data ++ (' ' :: (v.data ++ post.data))) := by
  rw [String.data_append, fieldTail_data]

theorem fieldTail_ne_nil (l : List Char) : "abbrlink:".data ++ l ≠ [] := by
  intro hemp
  have h9 : ("abbrlink:".data).length = 9 := by decide
  have hlen := congrArg List.length hemp
  rw [List.length_append, h9] at hlen
  simp at hlen

/-! ## Claim C6 -/

/-- C6 counterexample: with `hashLength = 8`, the document
`"abbrlink: aaaaaaaaaaaa"` carries a hex value of length 12 ≠ 8, yet
`getExistingAbbrlink` recognizes its first 8 characters instead of returning
`none` — the pattern `[a-fA-F0-9]{8}` is not anchored at the end of the
value. -/
theorem C6_counterexample :
    getExistingAbbrlink "abbrlink: aaaaaaaaaaaa" 8 false = some "aaaaaaaa" ∧
      getExistingAbbrlink "abbrlink: aaaaaaaaaaaa" 8 false ≠ none := by
  decide

/-- C6 (amended): identifier extraction is NOT anchored to the configured
length.  For hex encoding, any abbrlink field whose value starts with at
least `hashLength` hex characters — in particular a value strictly longer
than `hashLength` — is recognized as its first `hashLength` characters
rather than rejected; for decimal encoding a value of any length from 1 up
is recognized as its first `min hashLength length` digits (so shorter
values are returned whole). -/
theorem C6_extraction_not_length_anchored (pre v post : String) (n : Nat)
    (hn : 1 ≤ n) :
    ((∀ c ∈ v.data, isHexDigitJS c = true) → n ≤ v.data.length →
      (∀ i < pre.data.length,
        matchAt (pre.data.drop i ++ ("abbrlink: " ++ v ++ post).data) n false =
          none) →
      getExistingAbbrlink (pre ++ ("abbrlink: " ++ v ++ post)) n false =
        some (String.mk (v.data.take n))) ∧
    ((∀ c ∈ v.data, isDecDigitJS c = true) → 1 ≤ v.data.length →
      List.takeWhile isDecDigitJS post.data = [] →
      (∀ i < pre.data.length,
        matchAt (pre.data.drop i ++ ("abbrlink: " ++ v ++ post).data) n true =
          none) →
      getExistingAbbrlink (pre ++ ("abbrlink: " ++ v ++ post)) n true =
        some (String.mk (v.data.take n))) := by
  constructor
  · intro hv hnv hpre
    unfold getExistingAbbrlink
    rw [content_data]
    rw [scanMatch_skip _ n false (fun i hi => by
      have := hpre i hi
      rwa [fieldTail_data] at this)]
    rw [scanMatch_head (fieldTail_ne_nil _) (matchAt_field_hex post.data hn hnv hv)]
    rfl
  · intro hv hv1 htw hpre
    unfold getExistingAbbrlink
    rw [content_data]
    rw [scanMatch_skip _ n true (fun i hi => by
      have := hpre i hi
      rwa [fieldTail_data] at this)]
    rw [scanMatch_head (fieldTail_ne_nil _) (matchAt_field_dec post.data hn hv1 hv)]
    rw [htw, List.append_nil]
    rfl

theorem C6_extraction_not_length_anchored_witness :
    getExistingAbbrlink ("" ++ ("abbrlink: " ++ "aaaaaaaaaaaa" ++ "")) 8 false =
      some (String.mk ("aaaaaaaaaaaa".data.take 8)) :=
  (C6_extraction_not_length_anchored "" "aaaaaaaaaaaa" "" 8 (by decide)).1
    (by decide) (by decide) (fun i hi => absurd hi (by simp))

/-! ## Claim C7 -/

/-- C7: extraction round-trip.  Any identifier `h` produced by the hash
generator under a given `hashLength` and encoding, embedded as
`abbrlink: h` in any document text whose earlier positions contain no match,
is returned exactly by `getExistingAbbrlink` under the same `hashLength` and
encoding. -/
theorem C7_extraction_roundtrip (settings : AbbrLinkSettings)
    (contentDigest randomDigest : List Nat)
    (h4 : 4 ≤ settings.hashLength) (h32 : settings.hashLength ≤ 32)
    (hcd : contentDigest.length = 32) (hrd : randomDigest.length = 32)
    (h pre post : String)
    (hgen : generateSha256 settings contentDigest randomDigest = some h)
    (hpre : ∀ i < pre.data.length,
      matchAt (pre.data.drop i ++ ("abbrlink: " ++ h ++ post).data)
        settings.hashLength settings.useDecimal = none) :
    getExistingAbbrlink (pre ++ ("abbrlink: " ++ h ++ post))
      settings.hashLength settings.useDecimal = some h := by
  obtain ⟨s, hs, hslen, hsalpha⟩ :=
    generateSha256_ok settings contentDigest randomDigest hcd hrd h4 h32
  rw [hgen] at hs
  have heq : h = s := by injection hs
  subst heq
  have hdl : h.data.length = settings.hashLength := hslen
  have hn1 : 1 ≤ settings.hashLength := by omega
  unfold getExistingAbbrlink
  rw [content_data]
  rw [scanMatch_skip _ settings.hashLength settings.useDecimal (fun i hi => by
    have := hpre i hi
    rwa [fieldTail_data] at this)]
  cases hdec : settings.useDecimal with
  | false =>
    have hv : ∀ c ∈ h.data, isHexDigitJS c = true := by
      intro c hc
      have := hsalpha c hc
      rwa [hdec, if_neg Bool.false_ne_true] at this
    rw [scanMatch_head (fieldTail_ne_nil _)
      (matchAt_field_hex post.data hn1 (le_of_eq hdl.symm) hv)]
    rw [← hdl, List.take_length]
    rfl
  | true =>
    have hv : ∀ c ∈ h.data, isDecDigitJS c = true := by
      intro c hc
      have := hsalpha c hc
      rwa [hdec, if_pos rfl] at this
    have hv1 : 1 ≤ h.data.length := by omega
    rw [scanMatch_head (fieldTail_ne_nil _)
      (matchAt_field_dec post.data hn1 hv1 hv)]
    rw [← hdl, List.take_append_of_le_length (le_refl _), List.take_length]
    rfl

theorem C7_extraction_roundtrip_witness :
    getExistingAbbrlink ("" ++ ("abbrlink: " ++ "00000000" ++ "")) 8 false =
      some "00000000" :=
  C7_extraction_roundtrip ⟨8, true, false, false, false, 3, false, false⟩
    (List.replicate 32 0) (List.replicate 32 0)
    (by decide) (by decide) (by decide) (by decide)
    "00000000" "" "" (by decide) (fun i hi => absurd hi (by simp))

/-! ## Claim C9 -/

/-- C9: `filterTasksToProcess` returns the whole list when `skipExisting` is
false; when `skipExisting` is true it keeps exactly the tasks with no
existing identifier, plus — when `overrideDifferentLength` is also true —
the tasks whose `needsLengthUpdate` flag is set; hence a task with a valid
correct-length existing identifier is excluded when `skipExisting = true`
and `overrideDifferentLength = false`. -/
theorem C9_filter_policy (settings : AbbrLinkSettings) (tasks : List FileTask) :
    (settings.skipExisting = false →
      filterTasksToProcess settings tasks = tasks) ∧
    (settings.skipExisting = true →
      ∀ t, t ∈ filterTasksToProcess settings tasks ↔
        (t ∈ tasks ∧ (t.hasAbbrlink = false ∨
          (settings.overrideDifferentLength = true ∧
            t.needsLengthUpdate = true)))) ∧
    (settings.skipExisting = true → settings.overrideDifferentLength = false →
      ∀ t ∈ tasks, t.hasAbbrlink = true →
        t ∉ filterTasksToProcess settings tasks) := by
  have hfil : settings.skipExisting = true →
      filterTasksToProcess settings tasks =
        tasks.filter fun t =>
          !t.hasAbbrlink ||
            (settings.overrideDifferentLength && t.needsLengthUpdate) := by
    intro hskip
    unfold filterTasksToProcess
    rw [hskip, if_pos rfl]
  refine ⟨?_, ?_, ?_⟩
  · intro hskip
    unfold filterTasksToProcess
    rw [hskip, if_neg (by decide)]
  · intro hskip t
    rw [hfil hskip, List.mem_filter]
    constructor
    · rintro ⟨ht, hb⟩
      refine ⟨ht, ?_⟩
      rcases Bool.or_eq_true_iff.mp hb with hb | hb
      · exact Or.inl (by simpa using hb)
      · exact Or.inr (by simpa using Bool.and_eq_true_iff.mp hb)
    · rintro ⟨ht, hb | ⟨ho, hu⟩⟩
      · exact ⟨ht, by simp [hb]⟩
      · exact ⟨ht, by simp [ho, hu]⟩
  · intro hskip hov t ht hab hmem
    rw [hfil hskip, List.mem_filter] at hmem
    have hb := hmem.2
    rw [hab, hov] at hb
    simp at hb

theorem C9_filter_policy_witness :
    ((⟨8, true, false, false, false, 3, false, false⟩ : AbbrLinkSettings).skipExisting = false →
      filterTasksToProcess ⟨8, true, false, false, false, 3, false, false⟩
        [⟨⟨"p1", "a", 1⟩, true, some "aaaa", false⟩,
         ⟨⟨"p2", "b", 2⟩, false, none, false⟩] =
        [⟨⟨"p1", "a", 1⟩, true, some "aaaa", false⟩,
         ⟨⟨"p2", "b", 2⟩, false, none, false⟩]) ∧
    ((⟨8, true, false, false, false, 3, false, false⟩ : AbbrLinkSettings).skipExisting = true →
      ∀ t, t ∈ filterTasksToProcess ⟨8, true, false, false, false, 3, false, false⟩
        [⟨⟨"p1", "a", 1⟩, true, some "aaaa", false⟩,
         ⟨⟨"p2", "b", 2⟩, false, none, false⟩] ↔
        (t ∈ [⟨⟨"p1", "a", 1⟩, true, some "aaaa", false⟩,
              ⟨⟨"p2", "b", 2⟩, false, none, false⟩] ∧
          (t.hasAbbrlink = false ∨
            ((⟨8, true, false, false, false, 3, false, false⟩ : AbbrLinkSettings).overrideDifferentLength = true ∧
              t.needsLengthUpdate = true)))) ∧
    ((⟨8, true, false, false, false, 3, false, false⟩ : AbbrLinkSettings).skipExisting = true →
      (⟨8, true, false, false, false, 3, false, false⟩ : AbbrLinkSettings).overrideDifferentLength = false →
      ∀ t ∈ [⟨⟨"p1", "a", 1⟩, true, some "aaaa", false⟩,
             ⟨⟨"p2", "b", 2⟩, false, none, false⟩], t.hasAbbrlink = true →
        t ∉ filterTasksToProcess ⟨8, true, false, false, false, 3, false, false⟩
          [⟨⟨"p1", "a", 1⟩, true, some "aaaa", false⟩,
           ⟨⟨"p2", "b", 2⟩, false, none, false⟩]) :=
  C9_filter_policy ⟨8, true, false, false, false, 3, false, false⟩
    [⟨⟨"p1", "a", 1⟩, true, some "aaaa", false⟩,
     ⟨⟨"p2", "b", 2⟩, false, none, false⟩]

/-! ## Claim C10 -/

theorem updateAssoc_inv {Q : String → FileRef → Prop}
    {m : List (String × List FileRef)} {h : String} {f : FileRef}
    (hm : ∀ p ∈ m, ∀ g ∈ p.2, Q p.1 g) (hf : Q h f) :
    ∀ p ∈ updateAssoc m h f, ∀ g ∈ p.2, Q p.1 g := by
  induction m with
  | nil =>
    intro p hp g hg
    simp only [updateAssoc, List.mem_singleton] at hp
    subst hp
    simp only [List.mem_singleton] at hg
    subst hg
    exact hf
  | cons kv tl ih =>
    intro p hp g hg
    obtain ⟨k, v⟩ := kv
    simp only [updateAssoc] at hp
    by_cases hk : k = h
    · rw [if_pos hk] at hp
      rcases List.mem_cons.mp hp with rfl | hp'
      · rcases List.mem_append.mp hg with hg' | hg'
        · exact hm (k, v) (by simp) g hg'
        · rw [List.mem_singleton] at hg'
          subst hg'
          rw [show ((k, v ++ [g]).1 : String) = h from hk]
          exact hf
      · exact hm p (List.mem_cons_of_mem _ hp') g hg
    · rw [if_neg hk] at hp
      rcases List.mem_cons.mp hp with rfl | hp'
      · exact hm (k, v) (by simp) g hg
      · exact ih (fun p hp => hm p (by simp [hp])) p hp' g hg

theorem conflictFold_inv {Q : String → FileRef → Prop} :
    ∀ (tasks : List FileTask) (m : List (String × List FileRef)),
      (∀ p ∈ m, ∀ g ∈ p.2, Q p.1 g) →
      (∀ t ∈ tasks, ∀ h, t.hash = some h → Q h t.file) →
      ∀ p ∈ tasks.foldl conflictStep m, ∀ g ∈ p.2, Q p.1 g := by
  intro tasks
  induction tasks with
  | nil => intro m hm _ p hp; exact hm p hp
  | cons t tasks ih =>
    intro m hm htasks p hp
    rw [List.foldl_cons] at hp
    refine ih (conflictStep m t) ?_ (fun t ht => htasks t (by simp [ht])) p hp
    cases ht : t.hash with
    | none => simpa [conflictStep, ht] using hm
    | some h =>
      by_cases he : h = ""
      · simpa [conflictStep, ht, he] using hm
      · have hstep : conflictStep m t = updateAssoc m h t.file := by
          simp [conflictStep, ht, he]
        rw [hstep]
        exact updateAssoc_inv hm (htasks t (by simp) h ht)

/-- C10: `findHashConflicts` is total over arbitrary task lists: tasks whose
hash field is absent are silently skipped, never appearing in any reported
conflict group, and every returned group has at least 2 members that all come
from tasks carrying the group's identifier. -/
theorem C10_findHashConflicts_safe (tasks : List FileTask) :
    ∀ g ∈ findHashConflicts tasks,
      2 ≤ g.files.length ∧
      ∀ f ∈ g.files, ∃ t ∈ tasks, t.hash = some g.hash ∧ t.file = f := by
  intro g hg
  unfold findHashConflicts at hg
  obtain ⟨p, hp, rfl⟩ := List.mem_map.mp hg
  have hpf := List.mem_filter.mp hp
  constructor
  · show 2 ≤ p.2.length
    have h1 := hpf.2
    simp only [decide_eq_true_eq] at h1
    omega
  · intro f hf
    show ∃ t ∈ tasks, t.hash = some p.1 ∧ t.file = f
    exact @conflictFold_inv (fun h g => ∃ t ∈ tasks, t.hash = some h ∧ t.file = g)
      tasks [] (by simp)
      (fun t htmem h ht => ⟨t, htmem, ht, rfl⟩) p hpf.1 f hf

theorem C10_findHashConflicts_safe_witness :
    2 ≤ (⟨"aaaa", [⟨"p1", "a", 1⟩, ⟨"p2", "b", 2⟩]⟩ : HashConflict).files.length ∧
    ∀ f ∈ (⟨"aaaa", [⟨"p1", "a", 1⟩, ⟨"p2", "b", 2⟩]⟩ : HashConflict).files,
      ∃ t ∈ [⟨⟨"p1", "a", 1⟩, true, some "aaaa", false⟩,
             ⟨⟨"p0", "z", 9⟩, false, none, false⟩,
             ⟨⟨"p2", "b", 2⟩, true, some "aaaa", false⟩],
        FileTask.hash t = some (⟨"aaaa", [⟨"p1", "a", 1⟩, ⟨"p2", "b", 2⟩]⟩ : HashConflict).hash ∧
        FileTask.file t = f :=
  C10_findHashConflicts_safe
    [⟨⟨"p1", "a", 1⟩, true, some "aaaa", false⟩,
     ⟨⟨"p0", "z", 9⟩, false, none, false⟩,
     ⟨⟨"p2", "b", 2⟩, true, some "aaaa", false⟩]
    ⟨"aaaa", [⟨"p1", "a", 1⟩, ⟨"p2", "b", 2⟩]⟩ (by decide)

/-! ## Claim C3 -/

/-- Pointwise relation between the task list at entry to `resolveConflicts`
and a later state: each slot is untouched, or carries a replacement hash that
is fresh with respect to the `used` snapshot. -/
def SnapshotOK (used : List String) (old new : List FileTask) : Prop :=
  ∀ i : Nat, new[i]? = old[i]? ∨
    ∃ t h, old[i]? = some t ∧ new[i]? = some { t with hash := some h } ∧
      used.contains h = false

theorem snapshotOK_refl (used : List String) (l : List FileTask) :
    SnapshotOK used l l := fun _ => Or.inl rfl

theorem snapshotOK_trans {used : List String} {a b c : List FileTask}
    (hab : SnapshotOK used a b) (hbc : SnapshotOK used b c) :
    SnapshotOK used a c := by
  intro i
  rcases hbc i with hcb | ⟨t, h, hbt, hct, hf⟩
  · rcases hab i with hba | ⟨t, h, hat, hbt, hf⟩
    · exact Or.inl (hcb.trans hba)
    · exact Or.inr ⟨t, h, hat, hcb.trans hbt, hf⟩
  · rcases hab i with hba | ⟨t', h', hat, hbt', hf'⟩
    · exact Or.inr ⟨t, h, hba.symm.trans hbt, hct, hf⟩
    · rw [hbt'] at hbt
      have heq : t = { t' with hash := some h' } := by
        injection hbt with hval
        exact hval.symm
      subst heq
      exact Or.inr ⟨t', h, hat, hct, hf⟩

theorem drawFresh_not_used {used : List String} :
    ∀ {stream : List String} {h : String} {rest : List String},
      drawFresh used stream = some (h, rest) → used.contains h = false := by
  intro stream
  induction stream with
  | nil => intro h rest hd; simp [drawFresh] at hd
  | cons x s ih =>
    intro h rest hd
    unfold drawFresh at hd
    by_cases hx : used.contains x = true
    · rw [if_pos hx] at hd
      exact ih hd
    · rw [if_neg hx] at hd
      have hhx : x = h := by
        have := congrArg (fun o => Option.map Prod.fst o) hd
        simpa using this
      subst hhx
      exact Bool.not_eq_true _ ▸ (by revert hx; cases used.contains x <;> simp)

theorem setTaskHash_snapshotOK {used : List String} {h : String}
    (tasks : List FileTask) (p : String)
    (hf : used.contains h = false) :
    SnapshotOK used tasks (setTaskHash tasks p h) := by
  induction tasks with
  | nil => intro i; left; simp [setTaskHash]
  | cons t tl ih =>
    intro i
    simp only [setTaskHash]
    by_cases hp : t.file.path = p
    · rw [if_pos hp]
      cases i with
      | zero => exact Or.inr ⟨t, h, by simp, by simp, hf⟩
      | succ j => left; simp
    · rw [if_neg hp]
      cases i with
      | zero => left; simp
      | succ j =>
        rcases ih j with h' | ⟨t', h'', ht', hs, hf'⟩
        · left; simpa using h'
        · exact Or.inr ⟨t', h'', by simpa using ht', by simpa using hs, hf'⟩

theorem reassignFiles_snapshotOK {used : List String} :
    ∀ (files : List FileRef) (tasks : List FileTask) (stream : List String)
      (tasks2 : List FileTask) (rest : List String),
      reassignFiles used files tasks stream = some (tasks2, rest) →
      SnapshotOK used tasks tasks2 := by
  intro files
  induction files with
  | nil =>
    intro tasks stream tasks2 rest hr
    simp only [reassignFiles] at hr
    injection hr with h'
    have h1 : tasks = tasks2 := congrArg Prod.fst h'
    subst h1
    exact snapshotOK_refl _ _
  | cons f fs ih =>
    intro tasks stream tasks2 rest hr
    simp only [reassignFiles] at hr
    cases hd : drawFresh used stream with
    | none => rw [hd] at hr; exact absurd hr (by simp)
    | some pr =>
      obtain ⟨h, rest'⟩ := pr
      rw [hd] at hr
      exact snapshotOK_trans
        (setTaskHash_snapshotOK tasks f.path (drawFresh_not_used hd))
        (ih _ _ _ _ hr)

theorem resolveGroups_snapshotOK {used : List String} :
    ∀ (gs : List HashConflict) (tasks : List FileTask) (stream : List String)
      (tasks2 : List FileTask) (rest : List String),
      resolveGroups used gs tasks stream = some (tasks2, rest) →
      SnapshotOK used tasks tasks2 := by
  intro gs
  induction gs with
  | nil =>
    intro tasks stream tasks2 rest hr
    simp only [resolveGroups] at hr
    injection hr with h'
    have h1 : tasks = tasks2 := congrArg Prod.fst h'
    subst h1
    exact snapshotOK_refl _ _
  | cons g gs ih =>
    intro tasks stream tasks2 rest hr
    simp only [resolveGroups] at hr
    cases hra : reassignFiles used (sortByCtime g.files).tail tasks stream with
    | none => rw [hra] at hr; exact absurd hr (by simp)
    | some pr =>
      obtain ⟨tasksMid, streamMid⟩ := pr
      rw [hra] at hr
      exact snapshotOK_trans (reassignFiles_snapshotOK _ _ _ _ _ hra)
        (ih _ _ _ _ hr)

/-- C3 counterexample: three documents share `"aaaa"`; the random source
yields `"bbbb"` twice.  The second draw is accepted although the task at
`"p2"` already holds `"bbbb"` from earlier in the same invocation — the
rejection-sampling loop checks only the `usedHashes` snapshot taken at entry,
so it does accept a value already in use. -/
theorem C3_counterexample :
    resolveConflicts
        [⟨⟨"p1", "a", 1⟩, true, some "aaaa", false⟩,
         ⟨⟨"p2", "b", 2⟩, true, some "aaaa", false⟩,
         ⟨⟨"p3", "c", 3⟩, true, some "aaaa", false⟩]
        ["bbbb", "bbbb"] =
      some ([⟨⟨"p1", "a", 1⟩, true, some "aaaa", false⟩,
             ⟨⟨"p2", "b", 2⟩, true, some "bbbb", false⟩,
             ⟨⟨"p3", "c", 3⟩, true, some "bbbb", false⟩], []) ∧
    ("bbbb" : String) ≠ "aaaa" := by
  decide

/-- C3 (amended): during one invocation of `resolveConflicts`, every freshly
drawn replacement identifier differs from every identifier recorded in the
`usedHashes` snapshot taken at entry (so from every identifier assigned to
any task when the invocation started) — but it is NOT checked against
replacement identifiers accepted earlier in the same invocation. -/
theorem C3_resolve_snapshot_fresh (tasks : List FileTask) (stream : List String)
    (tasks2 : List FileTask) (rest : List String)
    (hres : resolveConflicts tasks stream = some (tasks2, rest)) :
    SnapshotOK (usedHashesOf tasks) tasks tasks2 := by
  unfold resolveConflicts at hres
  by_cases hemp : (findHashConflicts tasks).isEmpty = true
  · rw [if_pos hemp] at hres
    injection hres with h'
    have h1 : tasks = tasks2 := congrArg Prod.fst h'
    subst h1
    exact snapshotOK_refl _ _
  · rw [if_neg hemp] at hres
    exact resolveGroups_snapshotOK _ _ _ _ _ hres

theorem C3_resolve_snapshot_fresh_witness :
    ([⟨⟨"p1", "a", 1⟩, true, some "aaaa", false⟩,
      ⟨⟨"p2", "b", 2⟩, true, some "bbbb", false⟩,
      ⟨⟨"p3", "c", 3⟩, true, some "bbbb", false⟩] : List FileTask)[1]? =
        ([⟨⟨"p1", "a", 1⟩, true, some "aaaa", false⟩,
          ⟨⟨"p2", "b", 2⟩, true, some "aaaa", false⟩,
          ⟨⟨"p3", "c", 3⟩, true, some "aaaa", false⟩] : List FileTask)[1]? ∨
      ∃ t h,
        ([⟨⟨"p1", "a", 1⟩, true, some "aaaa", false⟩,
          ⟨⟨"p2", "b", 2⟩, true, some "aaaa", false⟩,
          ⟨⟨"p3", "c", 3⟩, true, some "aaaa", false⟩] : List FileTask)[1]? = some t ∧
        ([⟨⟨"p1", "a", 1⟩, true, some "aaaa", false⟩,
          ⟨⟨"p2", "b", 2⟩, true, some "bbbb", false⟩,
          ⟨⟨"p3", "c", 3⟩, true, some "bbbb", false⟩] : List FileTask)[1]? =
          some { t with hash := some h } ∧
        (usedHashesOf
          [⟨⟨"p1", "a", 1⟩, true, some "aaaa", false⟩,
           ⟨⟨"p2", "b", 2⟩, true, some "aaaa", false⟩,
           ⟨⟨"p3", "c", 3⟩, true, some "aaaa", false⟩]).contains h = false :=
  C3_resolve_snapshot_fresh
    [⟨⟨"p1", "a", 1⟩, true, some "aaaa", false⟩,
     ⟨⟨"p2", "b", 2⟩, true, some "aaaa", false⟩,
     ⟨⟨"p3", "c", 3⟩, true, some "aaaa", false⟩]
    ["bbbb", "bbbb"]
    [⟨⟨"p1", "a", 1⟩, true, some "aaaa", false⟩,
     ⟨⟨"p2", "b", 2⟩, true, some "bbbb", false⟩,
     ⟨⟨"p3", "c", 3⟩, true, some "bbbb", false⟩]
    [] (by decide) 1

/-! ## Claim C2 -/

/-- Symbolic evaluation of `resolveConflicts` on the three-document forced
collision: the earliest-created task keeps `X`, the second receives the first
accepted draw, the third the second accepted draw. -/
theorem scenario_resolve (p1 p2 p3 b1 b2 b3 : String) (t1 t2 t3 : Int)
    (X y1 y2 : String) (s : List String)
    (hp12 : p1 ≠ p2) (hp13 : p1 ≠ p3) (hp23 : p2 ≠ p3)
    (ht12 : t1 < t2) (ht23 : t2 < t3)
    (hX : X ≠ "") (hy1 : y1 ≠ X) (hy2 : y2 ≠ X) :
    resolveConflicts
        [⟨⟨p1, b1, t1⟩, true, some X, false⟩,
         ⟨⟨p2, b2, t2⟩, true, some X, false⟩,
         ⟨⟨p3, b3, t3⟩, true, some X, false⟩]
        (y1 :: y2 :: s) =
      some ([⟨⟨p1, b1, t1⟩, true, some X, false⟩,
             ⟨⟨p2, b2, t2⟩, true, some y1, false⟩,
             ⟨⟨p3, b3, t3⟩, true, some y2, false⟩], s) := by
  have hc1 : ([X, X, X] : List String).contains y1 = false := by simp [hy1]
  have hc2 : ([X, X, X] : List String).contains y2 = false := by simp [hy2]
  have hXb : (X != "") = true := by simpa using hX
  simp [resolveConflicts, findHashConflicts, conflictMap, conflictStep,
    updateAssoc, usedHashesOf, resolveGroups, sortByCtime, insertByCtime,
    reassignFiles, drawFresh, setTaskHash, hX, hXb, hc1, hc2,
    hp12, hp13, hp23, ht12.le, ht23.le, le_of_lt]
  simp [drawFresh, hy1, hy2]

theorem conf3 (p1 p2 p3 b1 b2 b3 : String) (t1 t2 t3 : Int) (X : String)
    (hX : X ≠ "") :
    findHashConflicts
        [⟨⟨p1, b1, t1⟩, true, some X, false⟩,
         ⟨⟨p2, b2, t2⟩, true, some X, false⟩,
         ⟨⟨p3, b3, t3⟩, true, some X, false⟩] =
      [⟨X, [⟨p1, b1, t1⟩, ⟨p2, b2, t2⟩, ⟨p3, b3, t3⟩]⟩] := by
  simp [findHashConflicts, conflictMap, conflictStep, updateAssoc, hX]

theorem confDistinct (p1 p2 p3 b1 b2 b3 : String) (t1 t2 t3 : Int)
    (X y1 y2 : String) (hX : X ≠ "") (hy1e : y1 ≠ "") (hy2e : y2 ≠ "")
    (hy1 : y1 ≠ X) (hy2 : y2 ≠ X) (hy12 : y1 ≠ y2) :
    findHashConflicts
        [⟨⟨p1, b1, t1⟩, true, some X, false⟩,
         ⟨⟨p2, b2, t2⟩, true, some y1, false⟩,
         ⟨⟨p3, b3, t3⟩, true, some y2, false⟩] = [] := by
  simp [findHashConflicts, conflictMap, conflictStep, updateAssoc, hX, hy1e, hy2e,
    hy1.symm, hy2.symm, hy12]

/-- C2 counterexample: three documents with creation times 1 < 2 < 3 all
hold `"aaaa"`; the random source yields `"bbbb"` twice.  After the resolution
protocol with `maxRounds = 1`, the earliest document still holds `"aaaa"` and
the other two hold identifiers different from `"aaaa"` — but NOT different
from each other: both hold `"bbbb"`, because the rejection sampling checks
only the snapshot taken at entry to `resolveConflicts`. -/
theorem C2_counterexample :
    (processFilesWithCollisionCheck (fun _ => "zzzz") 8 1
        [⟨⟨"p1", "a", 1⟩, true, some "aaaa", false⟩,
         ⟨⟨"p2", "b", 2⟩, true, some "aaaa", false⟩,
         ⟨⟨"p3", "c", 3⟩, true, some "aaaa", false⟩]
        ["bbbb", "bbbb"]).map (fun r => r.finalTasks.map fun t => t.hash) =
      some [some "aaaa", some "bbbb", some "bbbb"] ∧
    ("bbbb" : String) ≠ "aaaa" := by
  decide

/-- C2 (amended): for the conflict group processed by `resolveConflicts`,
the member with the smallest creation timestamp keeps its identifier
unchanged and every other member receives a freshly drawn random identifier
rejected against the entry snapshot; in particular, for three documents with
timestamps t1 < t2 < t3 all holding `X`, after the protocol with
`maxRounds ≥ 1` the t1 document still holds `X` and the t2/t3 documents hold
identifiers different from `X` — and different from each other PROVIDED the
two accepted random draws are distinct (the code does not enforce this
within one invocation). -/
theorem C2_resolution_tiebreak (gen : String → String) (hashLength m : Nat)
    (p1 p2 p3 b1 b2 b3 : String) (t1 t2 t3 : Int)
    (X y1 y2 : String) (s : List String) (hm : 1 ≤ m)
    (hp12 : p1 ≠ p2) (hp13 : p1 ≠ p3) (hp23 : p2 ≠ p3)
    (ht12 : t1 < t2) (ht23 : t2 < t3)
    (hX : X ≠ "") (hy1e : y1 ≠ "") (hy2e : y2 ≠ "")
    (hy1 : y1 ≠ X) (hy2 : y2 ≠ X) (hy12 : y1 ≠ y2) :
    ∃ r, processFilesWithCollisionCheck gen hashLength m
        [⟨⟨p1, b1, t1⟩, true, some X, false⟩,
         ⟨⟨p2, b2, t2⟩, true, some X, false⟩,
         ⟨⟨p3, b3, t3⟩, true, some X, false⟩]
        (y1 :: y2 :: s) = some r ∧
      r.finalTasks.map (fun t => t.hash) = [some X, some y1, some y2] ∧
      y1 ≠ X ∧ y2 ≠ X ∧ y1 ≠ y2 := by
  obtain ⟨k, rfl⟩ : ∃ k, m = k + 1 := ⟨m - 1, by omega⟩
  unfold processFilesWithCollisionCheck
  have hfill : fillMissing gen
      [⟨⟨p1, b1, t1⟩, true, some X, false⟩,
       ⟨⟨p2, b2, t2⟩, true, some X, false⟩,
       ⟨⟨p3, b3, t3⟩, true, some X, false⟩] =
      [⟨⟨p1, b1, t1⟩, true, some X, false⟩,
       ⟨⟨p2, b2, t2⟩, true, some X, false⟩,
       ⟨⟨p3, b3, t3⟩, true, some X, false⟩] := by
    simp [fillMissing, hX]
  have hfill2 : fillMissing gen
      [⟨⟨p1, b1, t1⟩, true, some X, false⟩,
       ⟨⟨p2, b2, t2⟩, true, some y1, false⟩,
       ⟨⟨p3, b3, t3⟩, true, some y2, false⟩] =
      [⟨⟨p1, b1, t1⟩, true, some X, false⟩,
       ⟨⟨p2, b2, t2⟩, true, some y1, false⟩,
       ⟨⟨p3, b3, t3⟩, true, some y2, false⟩] := by
    simp [fillMissing, hX, hy1e, hy2e]
  simp only [processFilesAux, hfill,
    conf3 p1 p2 p3 b1 b2 b3 t1 t2 t3 X hX,
    scenario_resolve p1 p2 p3 b1 b2 b3 t1 t2 t3 X y1 y2 s
      hp12 hp13 hp23 ht12 ht23 hX hy1 hy2]
  simp only [List.isEmpty_cons, if_false, Bool.false_eq_true]
  cases k with
  | zero =>
    simp only [if_pos rfl]
    exact ⟨_, rfl, by simp, hy1, hy2, hy12⟩
  | succ k' =>
    rw [if_neg (by omega)]
    simp only [processFilesAux, hfill2,
      confDistinct p1 p2 p3 b1 b2 b3 t1 t2 t3 X y1 y2 hX hy1e hy2e hy1 hy2 hy12]
    simp only [List.isEmpty_nil, if_pos rfl]
    exact ⟨_, rfl, by simp, hy1, hy2, hy12⟩

theorem C2_resolution_tiebreak_witness :
    ∃ r, processFilesWithCollisionCheck (fun _ => "zzzz") 8 1
        [⟨⟨"p1", "a", 1⟩, true, some "aaaa", false⟩,
         ⟨⟨"p2", "b", 2⟩, true, some "aaaa", false⟩,
         ⟨⟨"p3", "c", 3⟩, true, some "aaaa", false⟩]
        ["bbbb", "cccc"] = some r ∧
      r.finalTasks.map (fun t => t.hash) =
        [some "aaaa", some "bbbb", some "cccc"] ∧
      ("bbbb" : String) ≠ "aaaa" ∧ ("cccc" : String) ≠ "aaaa" ∧
      ("bbbb" : String) ≠ "cccc" :=
  C2_resolution_tiebreak (fun _ => "zzzz") 8 1 "p1" "p2" "p3" "a" "b" "c"
    1 2 3 "aaaa" "bbbb" "cccc" [] (by decide) (by decide) (by decide)
    (by decide) (by decide) (by decide) (by decide) (by decide) (by decide)
    (by decide) (by decide) (by decide)

/-! ## Claims C4 and C8 -/

/-- Master case analysis of the collision-check loop: every successful run
either committed in a round that found zero conflict groups (no warning, all
current tasks written) or exhausted the round budget (warning naming the
final round's conflict count, the current length and the suggested length —
and an empty commit list); in both cases at most `maxChecks` rounds ran. -/
theorem processAux_cases (gen : String → String) (len maxChecks : Nat) :
    ∀ (remaining cc : Nat) (tasks : List FileTask) (stream : List String)
      (r : RunResult),
      cc + remaining = maxChecks → 1 ≤ remaining →
      processFilesAux gen len maxChecks cc remaining tasks stream = some r →
      r.rounds ≤ maxChecks ∧
      ((r.warning = none ∧ r.commits = commitAll r.finalTasks ∧
          findHashConflicts r.finalTasks = []) ∨
        (∃ c, 1 ≤ c ∧
          r.warning = some (maxChecks, c, len, min (len + 4) 32) ∧
          r.commits = [])) := by
  intro remaining
  induction remaining with
  | zero =>
    intro cc tasks stream r hsum h1
    exact absurd h1 (by decide)
  | succ rem ih =>
    intro cc tasks stream r hsum h1 hp
    simp only [processFilesAux] at hp
    by_cases hconf : (findHashConflicts (fillMissing gen tasks)).isEmpty = true
    · rw [if_pos hconf] at hp
      injection hp with hr
      subst hr
      refine ⟨?_, Or.inl ⟨rfl, rfl, ?_⟩⟩
      · show cc + 1 ≤ maxChecks
        omega
      · exact List.isEmpty_iff.mp hconf
    · rw [if_neg hconf] at hp
      cases hres : resolveConflicts (fillMissing gen tasks) stream with
      | none => rw [hres] at hp; exact absurd hp (by simp)
      | some pr =>
        obtain ⟨tasks2, stream2⟩ := pr
        simp only [hres] at hp
        by_cases hcc : cc + 1 = maxChecks
        · rw [if_pos hcc] at hp
          injection hp with hr
          subst hr
          refine ⟨?_, Or.inr
            ⟨(findHashConflicts (fillMissing gen tasks)).length, ?_, ?_, rfl⟩⟩
          · show cc + 1 ≤ maxChecks
            omega
          · have hne : findHashConflicts (fillMissing gen tasks) ≠ [] := by
              simpa [List.isEmpty_iff] using hconf
            have := List.length_pos.mpr hne
            omega
          · rw [hcc]
        · rw [if_neg hcc] at hp
          exact ih (cc + 1) tasks2 stream2 r (by omega) (by omega) hp

/-- C4 counterexample: a run with one task (`"pd"`) holding the unique
identifier `"cccc"` and two tasks colliding on `"aaaa"`, with
`maxCollisionChecks = 1`.  The run reaches EXHAUSTED (the warning is
reported), yet the commit list is EMPTY: the identifier of `"pd"`, which
belongs to no conflict group at all, is never written — commits happen only
in a round that finds zero conflicts. -/
theorem C4_counterexample :
    (processFilesWithCollisionCheck (fun _ => "zzzz") 8 1
        [⟨⟨"pd", "d", 0⟩, true, some "cccc", false⟩,
         ⟨⟨"p1", "a", 1⟩, true, some "aaaa", false⟩,
         ⟨⟨"p2", "b", 2⟩, true, some "aaaa", false⟩]
        ["bbbb"]).map (fun r => (r.commits, r.warning)) =
      some ([], some (1, 1, 8, 12)) := by
  decide

/-- C4 (amended): when the resolution protocol reaches the EXHAUSTED state,
NO identifier at all is committed by `processFilesWithCollisionCheck` — the
non-conflicting tasks' identifiers are withheld along with the conflicting
ones, since the commit phase runs only in a round that finds zero conflict
groups (and then writes every task); the run still returns normally, with
the collision warning as the only report. -/
theorem C4_exhausted_commits_nothing (gen : String → String)
    (len maxChecks : Nat) (tasks : List FileTask) (stream : List String)
    (r : RunResult) (h1 : 1 ≤ maxChecks)
    (hp : processFilesWithCollisionCheck gen len maxChecks tasks stream =
      some r) :
    (∀ w, r.warning = some w → r.commits = []) ∧
    (r.warning = none → r.commits = commitAll r.finalTasks ∧
      findHashConflicts r.finalTasks = []) := by
  have hc := processAux_cases gen len maxChecks maxChecks 0 tasks stream r
    (by omega) h1 hp
  rcases hc.2 with ⟨hw, hcom, hconf⟩ | ⟨c, hc1, hw, hcom⟩
  · exact ⟨fun w hww => absurd (hw ▸ hww) (by simp), fun _ => ⟨hcom, hconf⟩⟩
  · refine ⟨fun w _ => hcom, fun hnone => absurd (hw ▸ hnone) (by simp)⟩

theorem C4_exhausted_commits_nothing_witness :
    (∀ w, (RunResult.warning
        ⟨[⟨⟨"pd", "d", 0⟩, true, some "cccc", false⟩,
          ⟨⟨"p1", "a", 1⟩, true, some "aaaa", false⟩,
          ⟨⟨"p2", "b", 2⟩, true, some "bbbb", false⟩],
         [], some (1, 1, 8, 12), 1⟩) = some w →
      (RunResult.commits
        ⟨[⟨⟨"pd", "d", 0⟩, true, some "cccc", false⟩,
          ⟨⟨"p1", "a", 1⟩, true, some "aaaa", false⟩,
          ⟨⟨"p2", "b", 2⟩, true, some "bbbb", false⟩],
         [], some (1, 1, 8, 12), 1⟩) = []) ∧
    ((RunResult.warning
        ⟨[⟨⟨"pd", "d", 0⟩, true, some "cccc", false⟩,
          ⟨⟨"p1", "a", 1⟩, true, some "aaaa", false⟩,
          ⟨⟨"p2", "b", 2⟩, true, some "bbbb", false⟩],
         [], some (1, 1, 8, 12), 1⟩) = none →
      (RunResult.commits
        ⟨[⟨⟨"pd", "d", 0⟩, true, some "cccc", false⟩,
          ⟨⟨"p1", "a", 1⟩, true, some "aaaa", false⟩,
          ⟨⟨"p2", "b", 2⟩, true, some "bbbb", false⟩],
         [], some (1, 1, 8, 12), 1⟩) =
        commitAll (RunResult.finalTasks
          ⟨[⟨⟨"pd", "d", 0⟩, true, some "cccc", false⟩,
            ⟨⟨"p1", "a", 1⟩, true, some "aaaa", false⟩,
            ⟨⟨"p2", "b", 2⟩, true, some "bbbb", false⟩],
           [], some (1, 1, 8, 12), 1⟩) ∧
        findHashConflicts (RunResult.finalTasks
          ⟨[⟨⟨"pd", "d", 0⟩, true, some "cccc", false⟩,
            ⟨⟨"p1", "a", 1⟩, true, some "aaaa", false⟩,
            ⟨⟨"p2", "b", 2⟩, true, some "bbbb", false⟩],
           [], some (1, 1, 8, 12), 1⟩) = []) :=
  C4_exhausted_commits_nothing (fun _ => "zzzz") 8 1
    [⟨⟨"pd", "d", 0⟩, true, some "cccc", false⟩,
     ⟨⟨"p1", "a", 1⟩, true, some "aaaa", false⟩,
     ⟨⟨"p2", "b", 2⟩, true, some "aaaa", false⟩]
    ["bbbb"]
    ⟨[⟨⟨"pd", "d", 0⟩, true, some "cccc", false⟩,
      ⟨⟨"p1", "a", 1⟩, true, some "aaaa", false⟩,
      ⟨⟨"p2", "b", 2⟩, true, some "bbbb", false⟩],
     [], some (1, 1, 8, 12), 1⟩
    (by decide) (by decide)

/-- C8: with `maxCollisionChecks` between 1 and 10, every successful run of
`processFilesWithCollisionCheck` executes at most `maxRounds` detect/reassign
rounds and terminates either committed with zero conflict groups or
EXHAUSTED, in which case the reported warning names the final round's
conflict count, the current `hashLength`, and the suggested longer length
`min(hashLength + 4, 32)`. -/
theorem C8_loop_bound (gen : String → String) (len maxChecks : Nat)
    (tasks : List FileTask) (stream : List String) (r : RunResult)
    (h1 : 1 ≤ maxChecks) (h10 : maxChecks ≤ 10)
    (hp : processFilesWithCollisionCheck gen len maxChecks tasks stream =
      some r) :
    r.rounds ≤ maxChecks ∧
    ((r.warning = none ∧ findHashConflicts r.finalTasks = []) ∨
      (∃ c, 1 ≤ c ∧
        r.warning = some (maxChecks, c, len, min (len + 4) 32))) := by
  have hc := processAux_cases gen len maxChecks maxChecks 0 tasks stream r
    (by omega) h1 hp
  refine ⟨hc.1, ?_⟩
  rcases hc.2 with ⟨hw, _, hconf⟩ | ⟨c, hc1, hw, _⟩
  · exact Or.inl ⟨hw, hconf⟩
  · exact Or.inr ⟨c, hc1, hw⟩

theorem C8_loop_bound_witness :
    (RunResult.rounds
      ⟨[⟨⟨"p1", "a", 1⟩, true, some "aaaa", false⟩,
        ⟨⟨"p2", "b", 2⟩, true, some "bbbb", false⟩,
        ⟨⟨"p3", "c", 3⟩, true, some "dddd", false⟩],
       [("p1", "aaaa"), ("p2", "bbbb"), ("p3", "dddd")], none, 3⟩) ≤ 3 ∧
    (((RunResult.warning
        ⟨[⟨⟨"p1", "a", 1⟩, true, some "aaaa", false⟩,
          ⟨⟨"p2", "b", 2⟩, true, some "bbbb", false⟩,
          ⟨⟨"p3", "c", 3⟩, true, some "dddd", false⟩],
         [("p1", "aaaa"), ("p2", "bbbb"), ("p3", "dddd")], none, 3⟩) = none ∧
      findHashConflicts (RunResult.finalTasks
        ⟨[⟨⟨"p1", "a", 1⟩, true, some "aaaa", false⟩,
          ⟨⟨"p2", "b", 2⟩, true, some "bbbb", false⟩,
          ⟨⟨"p3", "c", 3⟩, true, some "dddd", false⟩],
         [("p1", "aaaa"), ("p2", "bbbb"), ("p3", "dddd")], none, 3⟩) = []) ∨
      (∃ c, 1 ≤ c ∧
        (RunResult.warning
          ⟨[⟨⟨"p1", "a", 1⟩, true, some "aaaa", false⟩,
            ⟨⟨"p2", "b", 2⟩, true, some "bbbb", false⟩,
            ⟨⟨"p3", "c", 3⟩, true, some "dddd", false⟩],
           [("p1", "aaaa"), ("p2", "bbbb"), ("p3", "dddd")], none, 3⟩) =
          some (3, c, 8, min (8 + 4) 32))) :=
  C8_loop_bound (fun _ => "zzzz") 8 3
    [⟨⟨"p1", "a", 1⟩, true, some "aaaa", false⟩,
     ⟨⟨"p2", "b", 2⟩, true, some "aaaa", false⟩,
     ⟨⟨"p3", "c", 3⟩, true, some "aaaa", false⟩]
    ["bbbb", "bbbb", "dddd"]
    ⟨[⟨⟨"p1", "a", 1⟩, true, some "aaaa", false⟩,
      ⟨⟨"p2", "b", 2⟩, true, some "bbbb", false⟩,
      ⟨⟨"p3", "c", 3⟩, true, some "dddd", false⟩],
     [("p1", "aaaa"), ("p2", "bbbb"), ("p3", "dddd")], none, 3⟩
    (by decide) (by decide) (by decide)

end Abbr
